import Mathlib

/-!
# Storage command tree of `internal/commands/storage.go`

The Go file builds a tree of `cobra.Command` values.  Each constructor
function of the file is embedded as a Lean function returning a `Command`;
the fields that the source sets (`Use`, `Short`, `Args`, `RunE`,
`PersistentPreRunE`), the flags it registers and the children it adds are
kept, in source order.
-/

namespace Authelia

/-! ## The fragment of cobra / pflag that the file uses -/

/-- Typed default value of a pflag flag, one constructor per registration
method used in the file (`String`, `Int`, `Uint`, `Bool`, `StringSlice`). -/
inductive FlagValue
  | string (s : String)
  | int (n : Int)
  | uint (n : Nat)
  | bool (b : Bool)
  | stringSlice (xs : List String)
  deriving DecidableEq, Repr

/-- One registered flag: name, one-letter shorthand (empty when the flag has
none), default value and usage text. -/
structure Flag where
  name : String
  shorthand : String
  defValue : FlagValue
  usage : String
  deriving DecidableEq, Repr

/-- A pflag flag set, as the list of registered flags in registration order.
(pflag panics when a name is registered twice in one set.) -/
abbrev FlagSet := List Flag

namespace FlagSet

/-- `FlagSet.String(name, value, usage)`. -/
def regString (fs : FlagSet) (name value usage : String) : FlagSet :=
  fs ++ [⟨name, "", .string value, usage⟩]

/-- `FlagSet.StringP(name, shorthand, value, usage)`. -/
def regStringP (fs : FlagSet) (name shorthand value usage : String) : FlagSet :=
  fs ++ [⟨name, shorthand, .string value, usage⟩]

/-- `FlagSet.Int(name, value, usage)`. -/
def regInt (fs : FlagSet) (name : String) (value : Int) (usage : String) : FlagSet :=
  fs ++ [⟨name, "", .int value, usage⟩]

/-- `FlagSet.IntP(name, shorthand, value, usage)`. -/
def regIntP (fs : FlagSet) (name shorthand : String) (value : Int) (usage : String) : FlagSet :=
  fs ++ [⟨name, shorthand, .int value, usage⟩]

/-- `FlagSet.Uint(name, value, usage)`. -/
def regUint (fs : FlagSet) (name : String) (value : Nat) (usage : String) : FlagSet :=
  fs ++ [⟨name, "", .uint value, usage⟩]

/-- `FlagSet.Bool(name, value, usage)`. -/
def regBool (fs : FlagSet) (name : String) (value : Bool) (usage : String) : FlagSet :=
  fs ++ [⟨name, "", .bool value, usage⟩]

/-- `FlagSet.BoolP(name, shorthand, value, usage)`. -/
def regBoolP (fs : FlagSet) (name shorthand : String) (value : Bool) (usage : String) : FlagSet :=
  fs ++ [⟨name, shorthand, .bool value, usage⟩]

/-- `FlagSet.StringSlice(name, value, usage)`. -/
def regStringSlice (fs : FlagSet) (name : String) (value : List String) (usage : String) : FlagSet :=
  fs ++ [⟨name, "", .stringSlice value, usage⟩]

/-- `FlagSet.Lookup(name)`: the flag registered under `name`, if any. -/
def Lookup (fs : FlagSet) (name : String) : Option Flag :=
  fs.find? (fun f => f.name == name)

/-- Value a flag has after parsing an invocation: `supplied` lists the flags
present on the command line with the value given there; a flag that was not
supplied keeps its default.  `none` when no flag of that name is registered. -/
def valueOf (fs : FlagSet) (supplied : List (String × FlagValue)) (name : String) :
    Option FlagValue :=
  match fs.Lookup name with
  | none => none
  | some f => some ((supplied.lookup name).getD f.defValue)

end FlagSet

/-- Positional argument validator of a command (`Args` field): left unset,
`cobra.NoArgs`, or `cobra.ExactArgs(n)`. -/
inductive PositionalArgs
  | unset
  | NoArgs
  | ExactArgs (n : Nat)
  deriving DecidableEq, Repr

/-- The handler functions the file refers to.  They are declared elsewhere in
package `commands`; here they are names only.  The two handler factories
`newStorageMigrateListRunE` and `newStorageMigrationRunE` carry the boolean
they are called with. -/
inductive Handler
  | storagePersistentPreRunE
  | storageUserIdentifiersExport
  | storageUserIdentifiersImport
  | storageUserIdentifiersGenerate
  | storageUserIdentifiersAdd
  | storageSchemaEncryptionCheckRunE
  | storageSchemaEncryptionChangeKeyRunE
  | storageTOTPGenerateRunE
  | storageTOTPDeleteRunE
  | storageTOTPExportRunE
  | storageSchemaInfoRunE
  | storageMigrateHistoryRunE
  | newStorageMigrateListRunE (up : Bool)
  | newStorageMigrationRunE (up : Bool)
  deriving DecidableEq, Repr

/-- The fields of a `cobra.Command` literal that the file sets, together with
the two flag sets of the command. -/
structure CommandFields where
  Use : String
  Short : String
  Args : PositionalArgs := .unset
  PersistentPreRunE : Option Handler := none
  RunE : Option Handler := none
  persistentFlags : FlagSet := []
  localFlags : FlagSet := []
  deriving Repr

/-- A command with its sub-commands, in the order `AddCommand` received them. -/
inductive Command
  | node (fields : CommandFields) (commands : List Command)

namespace Command

/-- Fields of the command itself. -/
def fields : Command → CommandFields
  | node f _ => f

/-- `Command.Commands()`: the direct sub-commands. -/
def Commands : Command → List Command
  | node _ cs => cs

/-- `Command.AddCommand(cmds...)`. -/
def AddCommand : Command → List Command → Command
  | node f cs, cmds => node f (cs ++ cmds)

/-- `cmd.Flags()` followed by registrations on the returned set. -/
def withFlags : Command → (FlagSet → FlagSet) → Command
  | node f cs, reg => node { f with localFlags := reg f.localFlags } cs

/-- `cmd.PersistentFlags()` followed by registrations on the returned set. -/
def withPersistentFlags : Command → (FlagSet → FlagSet) → Command
  | node f cs, reg => node { f with persistentFlags := reg f.persistentFlags } cs

/-- `cmd.Flags()` read back: the local flag set. -/
def Flags (c : Command) : FlagSet := c.fields.localFlags

/-- `cmd.PersistentFlags()` read back. -/
def PersistentFlags (c : Command) : FlagSet := c.fields.persistentFlags

/-- `Command.Name()`: the `Use` line up to its first space. -/
def Name (c : Command) : String :=
  String.mk (c.fields.Use.toList.takeWhile (fun ch => ch != ' '))

/-- The `RunE` handler. -/
def RunE (c : Command) : Option Handler := c.fields.RunE

/-- Names of the direct sub-commands, in order. -/
def childNames (c : Command) : List String := c.Commands.map Name

end Command

/-- What `storage.go` takes from the rest of the code base: four constants
and the helper `cmdWithConfigFlags`, none of them declared in the file.  The
helper receives the command, a boolean and the default configuration file
names; its effect is taken to be the registration of the flags
`cmdWithConfigFlags persistent configs` on the persistent flag set when the
boolean is `true` and on the local one otherwise. -/
structure Env where
  storageMigrateDirectionUp : String
  storageMigrateDirectionDown : String
  identifierServiceOpenIDConnect : String
  storageExportFormatURI : String
  TOTPSecretSizeDefault : Nat
  cmdWithConfigFlags : Bool → List String → List Flag

/-- Effect of the call `cmdWithConfigFlags(cmd, persistent, configs)`. -/
def applyCmdWithConfigFlags (env : Env) (cmd : Command) (persistent : Bool)
    (configs : List String) : Command :=
  if persistent then cmd.withPersistentFlags (fun fs => fs ++ env.cmdWithConfigFlags persistent configs)
  else cmd.withFlags (fun fs => fs ++ env.cmdWithConfigFlags persistent configs)

/-! ## The constructors of `storage.go`, leaves first -/

/-- Embeds `newStorageUserIdentifiersExportCmd`. -/
def newStorageUserIdentifiersExportCmd : Command :=
  let cmd := Command.node
    { Use := "export"
      Short := "Export the identifiers to a YAML file"
      RunE := some .storageUserIdentifiersExport } []
  let cmd := cmd.withFlags fun fs =>
    fs.regStringP "file" "f" "user-opaque-identifiers.yml" "The file name for the YAML export"
  cmd

/-- Embeds `newStorageUserIdentifiersImportCmd`. -/
def newStorageUserIdentifiersImportCmd : Command :=
  let cmd := Command.node
    { Use := "import"
      Short := "Import the identifiers from a YAML file"
      RunE := some .storageUserIdentifiersImport } []
  let cmd := cmd.withFlags fun fs =>
    fs.regStringP "file" "f" "user-opaque-identifiers.yml" "The file name for the YAML import"
  cmd

/-- Embeds `newStorageUserIdentifiersGenerateCmd`. -/
def newStorageUserIdentifiersGenerateCmd (env : Env) : Command :=
  let cmd := Command.node
    { Use := "generate"
      Short := "Generate opaque identifiers in bulk"
      RunE := some .storageUserIdentifiersGenerate } []
  let cmd := cmd.withFlags fun fs =>
    fs.regStringSlice "users" [] "The list of users to generate the opaque identifiers for"
  let cmd := cmd.withFlags fun fs =>
    fs.regStringSlice "services" [env.identifierServiceOpenIDConnect]
      "The list of services to generate the opaque identifiers for, valid values are: openid"
  let cmd := cmd.withFlags fun fs =>
    fs.regStringSlice "sectors" [""] "The list of sectors to generate identifiers for"
  cmd

/-- Embeds `newStorageUserIdentifiersAddCmd`. -/
def newStorageUserIdentifiersAddCmd (env : Env) : Command :=
  let cmd := Command.node
    { Use := "add [username]"
      Short := "Add an identifiers to the database"
      Args := .ExactArgs 1
      RunE := some .storageUserIdentifiersAdd } []
  let cmd := cmd.withFlags fun fs =>
    fs.regString "identifier" ""
      "The optional version 4 UUID to use, if not set a random one will be used"
  let cmd := cmd.withFlags fun fs =>
    fs.regString "service" env.identifierServiceOpenIDConnect
      "The service to add the identifier for, valid values are: openid"
  let cmd := cmd.withFlags fun fs =>
    fs.regString "sector" "" "The sector identifier to use (should usually be blank)"
  cmd

/-- Embeds `newStorageUserIdentifiersCmd`. -/
def newStorageUserIdentifiersCmd (env : Env) : Command :=
  let cmd := Command.node
    { Use := "identifiers"
      Short := "Manages user opaque identifiers" } []
  let cmd := cmd.AddCommand
    [ newStorageUserIdentifiersExportCmd,
      newStorageUserIdentifiersImportCmd,
      newStorageUserIdentifiersGenerateCmd env,
      newStorageUserIdentifiersAddCmd env ]
  cmd

/-- Embeds `newStorageEncryptionCheckCmd`. -/
def newStorageEncryptionCheckCmd : Command :=
  let cmd := Command.node
    { Use := "check"
      Short := "Checks the encryption key against the database data"
      RunE := some .storageSchemaEncryptionCheckRunE } []
  let cmd := cmd.withFlags fun fs =>
    fs.regBool "verbose" false "enables verbose checking of every row of encrypted data"
  cmd

/-- Embeds `newStorageEncryptionChangeKeyCmd`. -/
def newStorageEncryptionChangeKeyCmd : Command :=
  let cmd := Command.node
    { Use := "change-key"
      Short := "Changes the encryption key"
      RunE := some .storageSchemaEncryptionChangeKeyRunE } []
  let cmd := cmd.withFlags fun fs =>
    fs.regString "new-encryption-key" "" "the new key to encrypt the data with"
  cmd

/-- Embeds `newStorageEncryptionCmd`. -/
def newStorageEncryptionCmd : Command :=
  let cmd := Command.node
    { Use := "encryption"
      Short := "Manages encryption" } []
  let cmd := cmd.AddCommand
    [ newStorageEncryptionChangeKeyCmd,
      newStorageEncryptionCheckCmd ]
  cmd

/-- Embeds `newStorageTOTPGenerateCmd`. -/
def newStorageTOTPGenerateCmd (env : Env) : Command :=
  let cmd := Command.node
    { Use := "generate [username]"
      Short := "Generate a TOTP configuration for a user"
      RunE := some .storageTOTPGenerateRunE
      Args := .ExactArgs 1 } []
  let cmd := cmd.withFlags fun fs =>
    fs.regString "secret" ""
      "Optionally set the TOTP shared secret as base32 encoded bytes (no padding), it's recommended to not set this option unless you're restoring an TOTP config"
  let cmd := cmd.withFlags fun fs =>
    fs.regUint "secret-size" env.TOTPSecretSizeDefault "set the TOTP secret size"
  let cmd := cmd.withFlags fun fs => fs.regUint "period" 30 "set the TOTP period"
  let cmd := cmd.withFlags fun fs => fs.regUint "digits" 6 "set the TOTP digits"
  let cmd := cmd.withFlags fun fs => fs.regString "algorithm" "SHA1" "set the TOTP algorithm"
  let cmd := cmd.withFlags fun fs => fs.regString "issuer" "Authelia" "set the TOTP issuer"
  let cmd := cmd.withFlags fun fs =>
    fs.regBoolP "force" "f" false
      "forces the TOTP configuration to be generated regardless if it exists or not"
  let cmd := cmd.withFlags fun fs =>
    fs.regStringP "path" "p" ""
      "path to a file to create a PNG file with the QR code (optional)"
  cmd

/-- Embeds `newStorageTOTPDeleteCmd`. -/
def newStorageTOTPDeleteCmd : Command :=
  let cmd := Command.node
    { Use := "delete username"
      Short := "Delete a TOTP configuration for a user"
      RunE := some .storageTOTPDeleteRunE
      Args := .ExactArgs 1 } []
  cmd

/-- Embeds `newStorageTOTPExportCmd`. -/
def newStorageTOTPExportCmd (env : Env) : Command :=
  let cmd := Command.node
    { Use := "export"
      Short := "Performs exports of the TOTP configurations"
      RunE := some .storageTOTPExportRunE } []
  let cmd := cmd.withFlags fun fs =>
    fs.regString "format" env.storageExportFormatURI "sets the output format"
  let cmd := cmd.withFlags fun fs =>
    fs.regString "dir" ""
      "used with the png output format to specify which new directory to save the files in"
  cmd

/-- Embeds `newStorageTOTPCmd`. -/
def newStorageTOTPCmd (env : Env) : Command :=
  let cmd := Command.node
    { Use := "totp"
      Short := "Manage TOTP configurations" } []
  let cmd := cmd.AddCommand
    [ newStorageTOTPGenerateCmd env,
      newStorageTOTPDeleteCmd,
      newStorageTOTPExportCmd env ]
  cmd

/-- Embeds `newStorageUserCmd`. -/
def newStorageUserCmd (env : Env) : Command :=
  let cmd := Command.node
    { Use := "user"
      Short := "Manages user settings" } []
  let cmd := cmd.AddCommand
    [ newStorageUserIdentifiersCmd env,
      newStorageTOTPCmd env ]
  cmd

/-- Embeds `newStorageSchemaInfoCmd`. -/
def newStorageSchemaInfoCmd : Command :=
  let cmd := Command.node
    { Use := "schema-info"
      Short := "Show the storage information"
      RunE := some .storageSchemaInfoRunE } []
  cmd

/-- Embeds `newStorageMigrateHistoryCmd`. -/
def newStorageMigrateHistoryCmd : Command :=
  let cmd := Command.node
    { Use := "history"
      Short := "Show migration history"
      Args := .NoArgs
      RunE := some .storageMigrateHistoryRunE } []
  cmd

/-- Embeds `newStorageMigrateListUpCmd`. -/
def newStorageMigrateListUpCmd : Command :=
  let cmd := Command.node
    { Use := "list-up"
      Short := "List the up migrations available"
      Args := .NoArgs
      RunE := some (.newStorageMigrateListRunE true) } []
  cmd

/-- Embeds `newStorageMigrateListDownCmd`. -/
def newStorageMigrateListDownCmd : Command :=
  let cmd := Command.node
    { Use := "list-down"
      Short := "List the down migrations available"
      Args := .NoArgs
      RunE := some (.newStorageMigrateListRunE false) } []
  cmd

/-- Embeds `newStorageMigrateUpCmd`. -/
def newStorageMigrateUpCmd (env : Env) : Command :=
  let cmd := Command.node
    { Use := env.storageMigrateDirectionUp
      Short := "Perform a migration up"
      Args := .NoArgs
      RunE := some (.newStorageMigrationRunE true) } []
  let cmd := cmd.withFlags fun fs =>
    fs.regIntP "target" "t" 0
      "sets the version to migrate to, by default this is the latest version"
  cmd

/-- Embeds `newStorageMigrateDownCmd`. -/
def newStorageMigrateDownCmd (env : Env) : Command :=
  let cmd := Command.node
    { Use := env.storageMigrateDirectionDown
      Short := "Perform a migration down"
      Args := .NoArgs
      RunE := some (.newStorageMigrationRunE false) } []
  let cmd := cmd.withFlags fun fs =>
    fs.regIntP "target" "t" 0 "sets the version to migrate to"
  let cmd := cmd.withFlags fun fs =>
    fs.regBool "pre1" false "sets pre1 as the version to migrate to"
  let cmd := cmd.withFlags fun fs =>
    fs.regBool "destroy-data" false "confirms you want to destroy data with this migration"
  cmd

/-- Embeds `newStorageMigrateCmd`. -/
def newStorageMigrateCmd (env : Env) : Command :=
  let cmd := Command.node
    { Use := "migrate"
      Short := "Perform or list migrations"
      Args := .NoArgs } []
  let cmd := cmd.AddCommand
    [ newStorageMigrateUpCmd env, newStorageMigrateDownCmd env,
      newStorageMigrateListUpCmd, newStorageMigrateListDownCmd,
      newStorageMigrateHistoryCmd ]
  cmd

/-- Embeds `NewStorageCmd`. -/
def NewStorageCmd (env : Env) : Command :=
  let cmd := Command.node
    { Use := "storage"
      Short := "Manage the Authelia storage"
      Args := .NoArgs
      PersistentPreRunE := some .storagePersistentPreRunE } []
  let cmd := applyCmdWithConfigFlags env cmd true ["configuration.yml"]
  let cmd := cmd.withPersistentFlags fun fs =>
    fs.regString "encryption-key" "" "the storage encryption key to use"
  let cmd := cmd.withPersistentFlags fun fs =>
    fs.regString "sqlite.path" "" "the SQLite database path"
  let cmd := cmd.withPersistentFlags fun fs =>
    fs.regString "mysql.host" "" "the MySQL hostname"
  let cmd := cmd.withPersistentFlags fun fs => fs.regInt "mysql.port" 3306 "the MySQL port"
  let cmd := cmd.withPersistentFlags fun fs =>
    fs.regString "mysql.database" "authelia" "the MySQL database name"
  let cmd := cmd.withPersistentFlags fun fs =>
    fs.regString "mysql.username" "authelia" "the MySQL username"
  let cmd := cmd.withPersistentFlags fun fs =>
    fs.regString "mysql.password" "" "the MySQL password"
  let cmd := cmd.withPersistentFlags fun fs =>
    fs.regString "postgres.host" "" "the PostgreSQL hostname"
  let cmd := cmd.withPersistentFlags fun fs =>
    fs.regInt "postgres.port" 5432 "the PostgreSQL port"
  let cmd := cmd.withPersistentFlags fun fs =>
    fs.regString "postgres.database" "authelia" "the PostgreSQL database name"
  let cmd := cmd.withPersistentFlags fun fs =>
    fs.regString "postgres.schema" "public" "the PostgreSQL schema name"
  let cmd := cmd.withPersistentFlags fun fs =>
    fs.regString "postgres.username" "authelia" "the PostgreSQL username"
  let cmd := cmd.withPersistentFlags fun fs =>
    fs.regString "postgres.password" "" "the PostgreSQL password"
  let cmd := cmd.withPersistentFlags fun fs =>
    fs.regString "postgres.ssl.mode" "disable" "the PostgreSQL ssl mode"
  let cmd := cmd.withPersistentFlags fun fs =>
    fs.regString "postgres.ssl.root_certificate" ""
      "the PostgreSQL ssl root certificate file location"
  let cmd := cmd.withPersistentFlags fun fs =>
    fs.regString "postgres.ssl.certificate" "" "the PostgreSQL ssl certificate file location"
  let cmd := cmd.withPersistentFlags fun fs =>
    fs.regString "postgres.ssl.key" "" "the PostgreSQL ssl key file location"
  let cmd := cmd.AddCommand
    [ newStorageMigrateCmd env,
      newStorageSchemaInfoCmd,
      newStorageEncryptionCmd,
      newStorageUserCmd env ]
  cmd

/-- Sample values for the constants `storage.go` takes from elsewhere, used
to evaluate the tree on a concrete input. -/
def sampleEnv : Env where
  storageMigrateDirectionUp := "up"
  storageMigrateDirectionDown := "down"
  identifierServiceOpenIDConnect := "openid"
  storageExportFormatURI := "uri"
  TOTPSecretSizeDefault := 32
  cmdWithConfigFlags := fun _ configs =>
    [⟨"config", "c", .stringSlice configs, "configuration files to load"⟩]

mutual
/-- Every leaf of the tree has a `RunE` handler and no command with
sub-commands has one. -/
def Command.handlersOnLeavesOnly : Command → Bool
  | .node f [] => f.RunE.isSome
  | .node f (c :: cs) =>
    f.RunE.isNone && Command.handlersOnLeavesOnly c && Command.handlersOnLeavesOnlyAll cs
/-- The check `handlersOnLeavesOnly` over a list of sub-commands. -/
def Command.handlersOnLeavesOnlyAll : List Command → Bool
  | [] => true
  | c :: cs => Command.handlersOnLeavesOnly c && Command.handlersOnLeavesOnlyAll cs
end

/-! ## The engine behind the handlers

The handlers named in `storage.go` (`newStorageMigrationRunE`,
`storageSchemaEncryptionCheckRunE`, ...) and the storage engine they call are
not part of the file.  The definitions of this section are written from the
specification of that engine, section by section.
-/

/-- Modelled from the spec: the `direction` of a migration, `{up, down}`
(section 3). -/
inductive Direction
  | up
  | down
  deriving DecidableEq, Repr

/-- Modelled from the spec: the three concrete backends of the Store Adapter
(section 2), named as in the connection flags of `NewStorageCmd`. -/
inductive Backend
  | sqlite
  | mysql
  | postgres
  deriving DecidableEq, Repr

/-- Modelled from the spec: `SchemaVersion` as the tagged variant
`{Versioned(int) | PreVersioning}` of sections 3 and 9; versions count up
from zero. -/
inductive SchemaVersion
  | PreVersioning
  | Versioned (n : Nat)
  deriving DecidableEq, Repr

/-- Modelled from the spec: the order on `SchemaVersion`; the legacy sentinel
is below every numbered version (section 4.1). -/
def SchemaVersion.lt : SchemaVersion → SchemaVersion → Bool
  | .PreVersioning, .Versioned _ => true
  | .Versioned a, .Versioned b => decide (a < b)
  | _, .PreVersioning => false

/-- Modelled from the spec: the non-strict order on `SchemaVersion`. -/
def SchemaVersion.le (a b : SchemaVersion) : Bool :=
  decide (a = b) || a.lt b

/-- Modelled from the spec: `EncryptedColumnDescriptor`, a `{table, column}`
pair known to hold ciphertext (section 3). -/
structure EncryptedColumnDescriptor where
  table : String
  column : String
  deriving DecidableEq, Repr

/-- Modelled from the spec: `EncryptionKeyMaterial`, symmetric key bytes
supplied by the operator (section 3). -/
abbrev EncryptionKeyMaterial := List Nat

/-- Modelled from the spec: a stored value of an encrypted column.  The
cipher is not part of the file; it is modelled as an ideal authenticated
cipher, whose ciphertext records the key and nonce that sealed the plaintext
and opens under that key only.  `malformed` is ciphertext that is broken
independently of any key (section 4.4). -/
inductive Cell
  | sealed (key : EncryptionKeyMaterial) (nonce : Nat) (plain : List Nat)
  | malformed
  deriving DecidableEq, Repr

/-- Modelled from the spec: the rows of every column, as the Store Adapter
returns them from `scanRows(table, column, ...)` (section 6). -/
abbrev Contents := EncryptedColumnDescriptor → List Cell

/-- Modelled from the spec: `Migration`, the compiled-in record
`{version, name, direction, applicableBackends, apply}` of section 3, with
the mark "destructive" of section 4.1.  `apply` either fails with a cause or
yields the new contents. -/
structure Migration where
  version : Nat
  name : String
  direction : Direction
  applicableBackends : List Backend
  destructive : Bool
  apply : Contents → Except String Contents

/-- Modelled from the spec: whether a migration applies to the connected
backend (section 4.1, backend filtering). -/
def Migration.applicable (m : Migration) (b : Backend) : Bool :=
  m.applicableBackends.contains b

/-- Modelled from the spec: the identity `(version, direction)` of a
migration (section 3). -/
def Migration.identity (m : Migration) : Nat × Direction :=
  (m.version, m.direction)

/-- Modelled from the spec: `MigrationHistoryEntry`,
`{version, direction, appliedAt, success}` (section 3). -/
structure MigrationHistoryEntry where
  version : Nat
  direction : Direction
  appliedAt : Nat
  success : Bool
  deriving DecidableEq, Repr

/-- Modelled from the spec: the persisted state behind a Store Adapter
handle: the backend, the version table, the history ledger (oldest first),
the advisory lock and the rows of the columns (sections 3 and 6). -/
structure Store where
  backend : Backend
  version : SchemaVersion
  history : List MigrationHistoryEntry
  locked : Bool
  rows : Contents

deriving instance DecidableEq for Except

/-! ### Migration Registry and Planner (section 4.1) -/

/-- Modelled from the spec: the order of `listMigrations`: by version,
ascending for up and descending for down. -/
def Direction.before : Direction → Migration → Migration → Prop
  | .up, a, b => a.version ≤ b.version
  | .down, a, b => b.version ≤ a.version

instance (d : Direction) : DecidableRel (Direction.before d) := fun a b =>
  match d with
  | .up => inferInstanceAs (Decidable (a.version ≤ b.version))
  | .down => inferInstanceAs (Decidable (b.version ≤ a.version))

instance (d : Direction) : IsTotal Migration (Direction.before d) :=
  ⟨fun a b => by cases d <;> exact Nat.le_total _ _⟩

instance (d : Direction) : IsTrans Migration (Direction.before d) :=
  ⟨fun a b c hab hbc => by
    cases d
    · exact Nat.le_trans hab hbc
    · exact Nat.le_trans hbc hab⟩

/-- Modelled from the spec: `listMigrations(direction)`, all migrations of the
registry in that direction, ordered by version ascending (up) or descending
(down). -/
def listMigrations (registry : List Migration) (direction : Direction) : List Migration :=
  List.insertionSort (Direction.before direction)
    (registry.filter fun m => decide (m.direction = direction))

/-- Modelled from the spec: the highest version known to the registry, the
meaning of "latest" (section 4.1). -/
def latestVersion (registry : List Migration) : Nat :=
  (registry.map Migration.version).foldr max 0

/-- Modelled from the spec: the two signals of `plan` that are not a sequence
of migrations (sections 4.1 and 7). -/
inductive PlanSignal
  | NoSuchVersion
  | AlreadyAtTarget
  deriving DecidableEq, Repr

/-- Modelled from the spec: a plan, the ordered migrations to apply together
with the version the plan assumes the store to be at (section 4.2,
`VersionMismatch`). -/
structure Plan where
  start : SchemaVersion
  steps : List Migration

/-- Modelled from the spec: whether a numbered target exists in the
registry; the legacy sentinel is always a known down target. -/
def targetExists (registry : List Migration) : SchemaVersion → Bool
  | .PreVersioning => true
  | .Versioned t => registry.any fun m => decide (m.version = t)

/-- Modelled from the spec: the version window of a plan: `(current, target]`
for up, `[target, current)` for down (section 4.1). -/
def inWindow (current target : SchemaVersion) (direction : Direction) (v : Nat) : Bool :=
  match direction with
  | .up => current.lt (.Versioned v) && (SchemaVersion.Versioned v).le target
  | .down => target.le (.Versioned v) && (SchemaVersion.Versioned v).lt current

/-- Modelled from the spec: `plan(currentVersion, targetVersion, direction)`
of section 4.1 against the registry and the connected backend.  A zero up
target stands for the highest known version; the legacy sentinel is refused
as an up target; equal versions give `AlreadyAtTarget`; a target unknown to
the registry gives `NoSuchVersion`; otherwise the plan holds the migrations
of the direction that apply to the backend and lie in the window, in the
order of `listMigrations`. -/
def plan (registry : List Migration) (backend : Backend)
    (currentVersion targetVersion : SchemaVersion) (direction : Direction) :
    Except PlanSignal Plan :=
  let target :=
    if direction = .up ∧ targetVersion = .Versioned 0 then
      SchemaVersion.Versioned (latestVersion registry)
    else targetVersion
  if direction = .up ∧ target = .PreVersioning then .error .NoSuchVersion
  else if currentVersion = target then .error .AlreadyAtTarget
  else if targetExists registry target = false then .error .NoSuchVersion
  else .ok
    { start := currentVersion
      steps := (listMigrations registry direction).filter fun m =>
        m.applicable backend && inWindow currentVersion target direction m.version }

/-- Modelled from the spec: no two migrations of the registry that apply to
the backend share an identity `(version, direction)` (section 3). -/
def identitiesUnique (registry : List Migration) (backend : Backend) : Prop :=
  ((registry.filter fun m => m.applicable backend).map Migration.identity).Nodup

/-- Modelled from the spec: the pair `(c, t)` is reachable in a direction on
a backend when every version of the window between them has a migration of
that direction which applies to the backend: the versions `c+1 .. t` for up
and `c .. t-1` for down (section 8). -/
def reachable (registry : List Migration) (backend : Backend) (direction : Direction)
    (c t : Nat) : Bool :=
  (List.range' (match direction with | .up => c + 1 | .down => c) (t - c)).all fun v =>
    registry.any fun m =>
      decide (m.version = v) && decide (m.direction = direction) && m.applicable backend

/-! ### Migration Executor (section 4.2) -/

/-- Modelled from the spec: the failures of `execute` (sections 4.1, 4.2
and 7). -/
inductive ExecuteError
  | MigrationFailed (atStep : Nat) (cause : String)
  | VersionMismatch
  | MigrationInProgress
  | DestructiveConfirmationRequired
  deriving DecidableEq, Repr

/-- Modelled from the spec: the states of the per-plan state machine
`Idle -> Running(step i) -> {Idle, Halted(step i, cause)}` (section 4.2). -/
inductive ExecutorState
  | Idle
  | Running (step : Nat)
  | Halted (step : Nat) (cause : String)
  deriving DecidableEq, Repr

/-- Modelled from the spec: what a run leaves behind: the store, the states
the executor went through, and the result handed to the caller (the history
entries, one per step, or the failure). -/
structure Execution where
  store : Store
  trace : List ExecutorState
  result : Except ExecuteError (List MigrationHistoryEntry)

/-- Modelled from the spec: one step in its own transaction: apply the
migration, then write the new version and append the history entry, all or
nothing; on failure the store is unchanged (section 4.2). -/
def runStep (appliedAt : Nat) (m : Migration) (s : Store) :
    Except String (Store × MigrationHistoryEntry) :=
  match m.apply s.rows with
  | .error cause => .error cause
  | .ok rows =>
    let entry : MigrationHistoryEntry :=
      { version := m.version, direction := m.direction, appliedAt := appliedAt, success := true }
    .ok ({ s with rows := rows, version := .Versioned m.version,
                  history := s.history ++ [entry] }, entry)

/-- Modelled from the spec: the steps of a plan from step `i` on, halting at
the first failure; the remaining steps are not attempted (section 4.2). -/
def runSteps (clock : Nat → Nat) :
    Nat → List Migration → Store → List ExecutorState → List MigrationHistoryEntry → Execution
  | _, [], s, trace, entries =>
    { store := s, trace := trace ++ [.Idle], result := .ok entries }
  | i, m :: rest, s, trace, entries =>
    match runStep (clock i) m s with
    | .error cause =>
      { store := s, trace := trace ++ [.Running i, .Halted i cause],
        result := .error (.MigrationFailed i cause) }
    | .ok (s', entry) =>
      runSteps clock (i + 1) rest s' (trace ++ [.Running i]) (entries ++ [entry])

/-- Modelled from the spec: `execute(plan, backend)` with the caller's
destructive confirmation (sections 4.1 and 4.2): refuse when a run holds the
lock, when the plan's start version is not the store's, or when a step is
destructive and unconfirmed; otherwise take the lock, run the steps (numbered
from 1) and release the lock. -/
def execute (clock : Nat → Nat) (p : Plan) (s : Store) (confirmDestructive : Bool) :
    Execution :=
  if s.locked then
    { store := s, trace := [], result := .error .MigrationInProgress }
  else if p.start ≠ s.version then
    { store := s, trace := [], result := .error .VersionMismatch }
  else if !confirmDestructive && p.steps.any (fun m => m.destructive) then
    { store := s, trace := [], result := .error .DestructiveConfirmationRequired }
  else
    let run := runSteps clock 1 p.steps { s with locked := true } [] []
    { run with store := { run.store with locked := false } }

/-- Modelled from the spec: `currentVersion()` of the Schema Info Reporter
(section 4.3). -/
def currentVersion (s : Store) : SchemaVersion := s.version

/-- Modelled from the spec: `history()` of the Schema Info Reporter, oldest
first (section 4.3). -/
def history (s : Store) : List MigrationHistoryEntry := s.history

/-- Modelled from the spec: the version a store that started at `start` is at
after the first `k` steps of a plan succeeded: every step writes its own
version (section 4.2). -/
def versionAfter (start : SchemaVersion) (steps : List Migration) (k : Nat) : SchemaVersion :=
  (steps.take k).foldl (fun _ m => SchemaVersion.Versioned m.version) start

/-! ### Encryption Key Checker and Rotator (sections 4.4 and 4.5) -/

/-- Modelled from the spec: the two classes of decryption failure,
`KeyMismatch` and `DataCorruption` (section 4.4). -/
inductive DecryptError
  | KeyMismatch
  | DataCorruption
  deriving DecidableEq, Repr

/-- Modelled from the spec: encryption of a plaintext under a key with the
given nonce, by the ideal cipher of `Cell`. -/
def encrypt (key : EncryptionKeyMaterial) (nonce : Nat) (plain : List Nat) : Cell :=
  .sealed key nonce plain

/-- Modelled from the spec: decryption of a stored value: the plaintext under
the key that sealed it, `KeyMismatch` under any other key, `DataCorruption`
for malformed ciphertext (section 4.4). -/
def decrypt (key : EncryptionKeyMaterial) : Cell → Except DecryptError (List Nat)
  | .sealed k _ plain => if k = key then .ok plain else .error .KeyMismatch
  | .malformed => .error .DataCorruption

/-- Modelled from the spec: `RowRef`, a row of an encrypted column, by the
column and the position of the row in the scan (from zero). -/
structure RowRef where
  table : String
  column : String
  row : Nat
  deriving DecidableEq, Repr

/-- Modelled from the spec: the row reference of position `i` of a column. -/
def EncryptedColumnDescriptor.rowRef (d : EncryptedColumnDescriptor) (i : Nat) : RowRef :=
  { table := d.table, column := d.column, row := i }

/-- Modelled from the spec: `Report{columnsChecked, rowsChecked, failures}` of
`check`; `causes` holds the class of each failure, in the order of
`failures` (section 4.4). -/
structure Report where
  columnsChecked : Nat
  rowsChecked : Nat
  failures : List RowRef
  causes : List DecryptError
  deriving DecidableEq, Repr

/-- Modelled from the spec: every row of a column, from position `i` on, that
fails to decrypt under the key, with the class of the failure. -/
def rowFailures (key : EncryptionKeyMaterial) (d : EncryptedColumnDescriptor) :
    Nat → List Cell → List (RowRef × DecryptError)
  | _, [] => []
  | i, c :: cs =>
    match decrypt key c with
    | .error e => (d.rowRef i, e) :: rowFailures key d (i + 1) cs
    | .ok _ => rowFailures key d (i + 1) cs

/-- Modelled from the spec: the first row of a column, from position `i` on,
that fails to decrypt under the key. -/
def firstFailure (key : EncryptionKeyMaterial) (d : EncryptedColumnDescriptor) :
    Nat → List Cell → Option (RowRef × DecryptError)
  | _, [] => none
  | i, c :: cs =>
    match decrypt key c with
    | .error e => some (d.rowRef i, e)
    | .ok _ => firstFailure key d (i + 1) cs

/-- Modelled from the spec: the default mode of `check`: column after column,
stopping at the first failure and reporting it (section 4.4). -/
def checkDefault (key : EncryptionKeyMaterial) (rows : Contents) :
    List EncryptedColumnDescriptor → Report → Report
  | [], r => r
  | d :: ds, r =>
    match firstFailure key d 0 (rows d) with
    | some (ref, e) =>
      { columnsChecked := r.columnsChecked + 1, rowsChecked := r.rowsChecked + ref.row + 1,
        failures := [ref], causes := [e] }
    | none =>
      checkDefault key rows ds
        { r with columnsChecked := r.columnsChecked + 1,
                 rowsChecked := r.rowsChecked + (rows d).length }

/-- Modelled from the spec: the verbose mode of `check`: every row of every
encrypted column is decrypted and all failures are accumulated
(section 4.4). -/
def checkVerbose (key : EncryptionKeyMaterial) (rows : Contents)
    (ds : List EncryptedColumnDescriptor) : Report :=
  let found := ds.flatMap fun d => rowFailures key d 0 (rows d)
  { columnsChecked := ds.length, rowsChecked := (ds.map fun d => (rows d).length).sum,
    failures := found.map Prod.fst, causes := found.map Prod.snd }

/-- Modelled from the spec: `check(key, verbose)` over the encrypted columns
that `layout` derives from the store's current schema version; it performs
no writes (section 4.4). -/
def check (layout : SchemaVersion → List EncryptedColumnDescriptor) (s : Store)
    (key : EncryptionKeyMaterial) (verbose : Bool) : Report :=
  if verbose then checkVerbose key s.rows (layout s.version)
  else checkDefault key s.rows (layout s.version)
    { columnsChecked := 0, rowsChecked := 0, failures := [], causes := [] }

/-- Modelled from the spec: `RotationReport{columnsRotated, rowsRotated}`
(section 4.5). -/
structure RotationReport where
  columnsRotated : Nat
  rowsRotated : Nat
  deriving DecidableEq, Repr

/-- Modelled from the spec: the failures of `rotate`:
`RotationFailed{table, column, rowRef, cause}`, and `MigrationInProgress`
when the advisory lock is held (sections 4.5 and 7). -/
inductive RotationError
  | RotationFailed (table column : String) (rowRef : RowRef) (cause : DecryptError)
  | MigrationInProgress
  deriving DecidableEq, Repr

/-- Modelled from the spec: the outcome of rotating one column: its rows as
persisted afterwards, the next unused nonce, the number of rows whose new
ciphertext was committed, and the failing row if a batch was aborted. -/
structure ColumnRotation where
  rows : List Cell
  nonce : Nat
  committed : Nat
  failure : Option (Nat × DecryptError)
  deriving DecidableEq, Repr

/-- Modelled from the spec: rotation of the rows of one column in batches of
`batchSize` rows (section 4.5).  `committed` holds the rewritten rows of the
batches committed so far, `pendingOld` and `pendingNew` the rows of the
current batch as stored and as rewritten.  Each row is decrypted under the
old key and re-encrypted under the new key with the next nonce; a batch is
committed when it is full or the column ends; a row that does not decrypt
aborts its batch, which keeps the stored rows of that batch and of all rows
after it. -/
def rotateRows (oldKey newKey : EncryptionKeyMaterial) (batchSize : Nat) :
    List Cell → Nat → List Cell → List Cell → List Cell → Nat → ColumnRotation
  | [], _, committed, _, pendingNew, nonce =>
    { rows := committed ++ pendingNew, nonce := nonce,
      committed := (committed ++ pendingNew).length, failure := none }
  | c :: rest, i, committed, pendingOld, pendingNew, nonce =>
    match decrypt oldKey c with
    | .error e =>
      { rows := committed ++ pendingOld ++ c :: rest, nonce := nonce,
        committed := committed.length, failure := some (i, e) }
    | .ok plain =>
      if batchSize ≤ (pendingNew ++ [encrypt newKey nonce plain]).length then
        rotateRows oldKey newKey batchSize rest (i + 1)
          (committed ++ (pendingNew ++ [encrypt newKey nonce plain])) [] [] (nonce + 1)
      else
        rotateRows oldKey newKey batchSize rest (i + 1)
          committed (pendingOld ++ [c]) (pendingNew ++ [encrypt newKey nonce plain]) (nonce + 1)

/-- Modelled from the spec: what `rotate` leaves behind: the store, the
result handed to the caller and the number of rows committed under the new
key (section 4.5). -/
structure Rotation where
  store : Store
  result : Except RotationError RotationReport
  rowsCommitted : Nat

/-- Modelled from the spec: rotation column after column; a failure stops
the rotation and leaves the batches committed before it in place
(section 4.5). -/
def rotateColumns (oldKey newKey : EncryptionKeyMaterial) (batchSize : Nat) :
    List EncryptedColumnDescriptor → Store → Nat → RotationReport → Rotation
  | [], s, _, report => { store := s, result := .ok report, rowsCommitted := report.rowsRotated }
  | d :: ds, s, nonce, report =>
    let r := rotateRows oldKey newKey batchSize (s.rows d) 0 [] [] [] nonce
    let s' : Store := { s with rows := fun d' => if d' = d then r.rows else s.rows d' }
    match r.failure with
    | some (i, e) =>
      { store := s', result := .error (.RotationFailed d.table d.column (d.rowRef i) e),
        rowsCommitted := report.rowsRotated + r.committed }
    | none =>
      rotateColumns oldKey newKey batchSize ds s' r.nonce
        { columnsRotated := report.columnsRotated + 1,
          rowsRotated := report.rowsRotated + r.committed }

/-- Modelled from the spec: `rotate(oldKey, newKey)` over the encrypted
columns that `layout` derives from the store's current schema version, under
the advisory lock shared with migrations; `nonce` is the first fresh nonce
(section 4.5). -/
def rotate (layout : SchemaVersion → List EncryptedColumnDescriptor) (s : Store)
    (oldKey newKey : EncryptionKeyMaterial) (batchSize nonce : Nat) : Rotation :=
  if s.locked then
    { store := s, result := .error .MigrationInProgress, rowsCommitted := 0 }
  else
    let run := rotateColumns oldKey newKey batchSize (layout s.version)
      { s with locked := true } nonce { columnsRotated := 0, rowsRotated := 0 }
    { run with store := { run.store with locked := false } }

/-- Modelled from the spec: every stored value of the list is ciphertext
sealed under `key`. -/
def allUnder (key : EncryptionKeyMaterial) (cells : List Cell) : Prop :=
  ∀ c ∈ cells, ∃ nonce plain, c = Cell.sealed key nonce plain

/-! ### Sample data -/

/-- A sample registry, out of order: up-migrations 1, 2, 3 and
down-migrations 0, 1, 2; version 2 up exists once for the embedded store and
MySQL and once for PostgreSQL. -/
def sampleRegistry : List Migration :=
  [ { version := 3, name := "AddConsent", direction := .up,
      applicableBackends := [.sqlite, .mysql, .postgres], destructive := false,
      apply := fun rows => .ok rows },
    { version := 1, name := "Initial", direction := .up,
      applicableBackends := [.sqlite, .mysql, .postgres], destructive := false,
      apply := fun rows => .ok rows },
    { version := 2, name := "AddIdentifiers", direction := .up,
      applicableBackends := [.sqlite, .mysql], destructive := false,
      apply := fun rows => .ok rows },
    { version := 2, name := "AddIdentifiers", direction := .up,
      applicableBackends := [.postgres], destructive := false,
      apply := fun rows => .ok rows },
    { version := 1, name := "DropIdentifiers", direction := .down,
      applicableBackends := [.sqlite, .mysql, .postgres], destructive := true,
      apply := fun rows => .ok rows },
    { version := 0, name := "DropInitial", direction := .down,
      applicableBackends := [.sqlite, .mysql, .postgres], destructive := true,
      apply := fun rows => .ok rows },
    { version := 2, name := "DropConsent", direction := .down,
      applicableBackends := [.sqlite, .mysql, .postgres], destructive := false,
      apply := fun rows => .ok rows } ]

/-- A sample encrypted column. -/
def sampleColumn : EncryptedColumnDescriptor :=
  { table := "totp_configurations", column := "secret" }

/-- A sample layout: the one encrypted column at every schema version. -/
def sampleLayout : SchemaVersion → List EncryptedColumnDescriptor :=
  fun _ => [sampleColumn]

/-- A sample store at version 0 with three rows of the sample column sealed
under the key `[1]`. -/
def sampleStore : Store :=
  { backend := .sqlite, version := .Versioned 0, history := [], locked := false,
    rows := fun d =>
      if d = sampleColumn then
        [.sealed [1] 0 [10], .sealed [1] 1 [11], .sealed [1] 2 [12]]
      else [] }

/-- A sample plan of four steps from version 0 whose third step fails. -/
def samplePlan : Plan :=
  { start := .Versioned 0
    steps :=
      [ { version := 1, name := "Initial", direction := .up, applicableBackends := [.sqlite],
          destructive := false, apply := fun rows => .ok rows },
        { version := 2, name := "AddIdentifiers", direction := .up,
          applicableBackends := [.sqlite], destructive := false,
          apply := fun rows => .ok rows },
        { version := 3, name := "AddConsent", direction := .up, applicableBackends := [.sqlite],
          destructive := false, apply := fun _ => .error "disk full" },
        { version := 4, name := "AddBans", direction := .up, applicableBackends := [.sqlite],
          destructive := false, apply := fun rows => .ok rows } ] }

/-! ## The command tree: flags, handlers and shape -/

/-- A key that occurs in no pair of an association list is not found by
`List.lookup`. -/
theorem lookup_eq_none_of_not_supplied (name : String) :
    ∀ supplied : List (String × FlagValue), (∀ v, (name, v) ∉ supplied) →
      supplied.lookup name = none
  | [], _ => rfl
  | (k, v) :: rest, h => by
    have hk : (name == k) = false := by
      rw [beq_eq_false_iff_ne]
      intro hnk
      exact h v (by simp [hnk])
    rw [List.lookup_cons, hk]
    exact lookup_eq_none_of_not_supplied name rest
      (fun w hw => h w (List.mem_cons_of_mem _ hw))

/-- A value found by `List.lookup` is paired with the key in the list. -/
theorem mem_of_lookup_eq_some (name : String) (v : FlagValue) :
    ∀ supplied : List (String × FlagValue), supplied.lookup name = some v →
      (name, v) ∈ supplied
  | [], h => by simp at h
  | (k, w) :: rest, h => by
    rw [List.lookup_cons] at h
    by_cases hk : (name == k) = true
    · rw [hk] at h
      have hkw : name = k := by simpa using hk
      have hvw : w = v := by simpa using h
      simp [hkw, hvw]
    · have hk' : (name == k) = false := by simpa using hk
      rw [hk'] at h
      exact List.mem_cons_of_mem _ (mem_of_lookup_eq_some name v rest h)

/-- The value of a registered flag after parsing is its default or a value
that the invocation supplied. -/
theorem valueOf_default_or_supplied (fs : FlagSet) (name : String) (f : Flag)
    (hf : fs.Lookup name = some f) (supplied : List (String × FlagValue)) (v : FlagValue)
    (hv : fs.valueOf supplied name = some v) :
    v = f.defValue ∨ (name, v) ∈ supplied := by
  unfold FlagSet.valueOf at hv
  rw [hf] at hv
  simp only [Option.some.injEq] at hv
  cases hl : supplied.lookup name with
  | none => rw [hl] at hv; left; simpa using hv.symm
  | some w =>
    rw [hl] at hv
    have hwv : w = v := by simpa using hv
    right
    exact mem_of_lookup_eq_some name v supplied (hwv ▸ hl)

/-- C1: in the tree built by `NewStorageCmd` the migrate command holds the up
and the down command; the down command defines the boolean flag `pre1` with
default `false`, and the up command defines no flag `pre1`: its only local
flag is `target`. -/
theorem pre1_flag_on_down_command_only (env : Env) :
    (NewStorageCmd env).Commands =
        [newStorageMigrateCmd env, newStorageSchemaInfoCmd, newStorageEncryptionCmd,
          newStorageUserCmd env] ∧
      (newStorageMigrateCmd env).Commands =
        [newStorageMigrateUpCmd env, newStorageMigrateDownCmd env,
          newStorageMigrateListUpCmd, newStorageMigrateListDownCmd,
          newStorageMigrateHistoryCmd] ∧
      (newStorageMigrateDownCmd env).Flags.Lookup "pre1" =
        some { name := "pre1", shorthand := "", defValue := .bool false,
               usage := "sets pre1 as the version to migrate to" } ∧
      (newStorageMigrateUpCmd env).Flags.Lookup "pre1" = none ∧
      (newStorageMigrateUpCmd env).Flags.map Flag.name = ["target"] :=
  ⟨rfl, rfl, rfl, rfl, rfl⟩

/-- C2: the down command defines the boolean flag `destroy-data` with default
`false`; for every invocation that does not supply the flag its value after
parsing is `false`; the up command defines no such flag. -/
theorem destroy_data_confirmation_defaults_false (env : Env)
    (supplied : List (String × FlagValue)) (h : ∀ v, ("destroy-data", v) ∉ supplied) :
    (newStorageMigrateDownCmd env).Flags.Lookup "destroy-data" =
        some { name := "destroy-data", shorthand := "", defValue := .bool false,
               usage := "confirms you want to destroy data with this migration" } ∧
      (newStorageMigrateDownCmd env).Flags.valueOf supplied "destroy-data" =
        some (.bool false) ∧
      (newStorageMigrateUpCmd env).Flags.Lookup "destroy-data" = none := by
  refine ⟨rfl, ?_, rfl⟩
  have hl : (newStorageMigrateDownCmd env).Flags.Lookup "destroy-data" =
      some { name := "destroy-data", shorthand := "", defValue := .bool false,
             usage := "confirms you want to destroy data with this migration" } := rfl
  unfold FlagSet.valueOf
  rw [hl, lookup_eq_none_of_not_supplied "destroy-data" supplied h]
  rfl

/-- Witness of C2: an invocation `down --target 1` on the sample constants. -/
theorem destroy_data_confirmation_defaults_false_witness :
    (∀ v, ("destroy-data", v) ∉ [("target", FlagValue.int 1)]) ∧
      (newStorageMigrateDownCmd sampleEnv).Flags.valueOf [("target", FlagValue.int 1)]
        "destroy-data" = some (.bool false) :=
  ⟨by simp,
    (destroy_data_confirmation_defaults_false sampleEnv [("target", FlagValue.int 1)]
      (by simp)).2.1⟩

/-- C4: the check command defines the boolean flag `verbose` with default
`false`, and it is the only local flag of that command. -/
theorem encryption_check_verbose_defaults_false :
    newStorageEncryptionCheckCmd.Flags =
        [{ name := "verbose", shorthand := "", defValue := .bool false,
           usage := "enables verbose checking of every row of encrypted data" }] ∧
      newStorageEncryptionCheckCmd.Flags.Lookup "verbose" =
        some { name := "verbose", shorthand := "", defValue := .bool false,
               usage := "enables verbose checking of every row of encrypted data" } ∧
      newStorageEncryptionCheckCmd.Flags.valueOf [] "verbose" = some (.bool false) ∧
      newStorageEncryptionCmd.Commands =
        [newStorageEncryptionChangeKeyCmd, newStorageEncryptionCheckCmd] :=
  ⟨rfl, rfl, rfl, rfl⟩

/-- C5: provided the configuration flags registered by `cmdWithConfigFlags`
do not already take the name, the persistent flag `encryption-key` of
`NewStorageCmd` has the empty string as default, and so has the flag
`new-encryption-key` of the change-key command; hence the value either flag
has after parsing is the empty string or a value supplied with the
invocation. -/
theorem encryption_keys_default_empty (env : Env)
    (h : ∀ f ∈ env.cmdWithConfigFlags true ["configuration.yml"], f.name ≠ "encryption-key") :
    (NewStorageCmd env).PersistentFlags.Lookup "encryption-key" =
        some { name := "encryption-key", shorthand := "", defValue := .string "",
               usage := "the storage encryption key to use" } ∧
      newStorageEncryptionChangeKeyCmd.Flags.Lookup "new-encryption-key" =
        some { name := "new-encryption-key", shorthand := "", defValue := .string "",
               usage := "the new key to encrypt the data with" } ∧
      (∀ supplied v,
        (NewStorageCmd env).PersistentFlags.valueOf supplied "encryption-key" = some v →
          v = .string "" ∨ ("encryption-key", v) ∈ supplied) ∧
      (∀ supplied v,
        newStorageEncryptionChangeKeyCmd.Flags.valueOf supplied "new-encryption-key" = some v →
          v = .string "" ∨ ("new-encryption-key", v) ∈ supplied) := by
  have hcfg : (env.cmdWithConfigFlags true ["configuration.yml"]).find?
      (fun f => f.name == "encryption-key") = none := by
    rw [List.find?_eq_none]
    intro f hf
    simpa using h f hf
  have hkey : (NewStorageCmd env).PersistentFlags.Lookup "encryption-key" =
      some { name := "encryption-key", shorthand := "", defValue := .string "",
             usage := "the storage encryption key to use" } := by
    simp only [NewStorageCmd, applyCmdWithConfigFlags, Command.withPersistentFlags,
      Command.AddCommand, Command.PersistentFlags, Command.fields, FlagSet.regString,
      FlagSet.regInt, FlagSet.Lookup, if_true, List.nil_append, List.append_assoc,
      List.find?_append, hcfg, Option.none_or]
    rfl
  have hnew : newStorageEncryptionChangeKeyCmd.Flags.Lookup "new-encryption-key" =
      some { name := "new-encryption-key", shorthand := "", defValue := .string "",
             usage := "the new key to encrypt the data with" } := rfl
  exact ⟨hkey, hnew,
    fun supplied v hv => valueOf_default_or_supplied _ _ _ hkey supplied v hv,
    fun supplied v hv => valueOf_default_or_supplied _ _ _ hnew supplied v hv⟩

/-- Witness of C5: the sample constants, whose only configuration flag is
`config`. -/
theorem encryption_keys_default_empty_witness :
    (∀ f ∈ sampleEnv.cmdWithConfigFlags true ["configuration.yml"],
        f.name ≠ "encryption-key") ∧
      (NewStorageCmd sampleEnv).PersistentFlags.Lookup "encryption-key" =
        some { name := "encryption-key", shorthand := "", defValue := .string "",
               usage := "the storage encryption key to use" } :=
  ⟨by decide, (encryption_keys_default_empty sampleEnv (by decide)).1⟩

/-- C10: the up command runs `newStorageMigrationRunE(true)` and the down
command `newStorageMigrationRunE(false)`; the list-up command runs
`newStorageMigrateListRunE(true)` and the list-down command
`newStorageMigrateListRunE(false)`.  So each of the four handlers is built
with `true` exactly for the up command of its pair. -/
theorem handler_direction_matches_command (env : Env) :
    (newStorageMigrateUpCmd env).RunE = some (.newStorageMigrationRunE true) ∧
      (newStorageMigrateDownCmd env).RunE = some (.newStorageMigrationRunE false) ∧
      newStorageMigrateListUpCmd.RunE = some (.newStorageMigrateListRunE true) ∧
      newStorageMigrateListDownCmd.RunE = some (.newStorageMigrateListRunE false) ∧
      (∀ b, (newStorageMigrateUpCmd env).RunE = some (.newStorageMigrationRunE b) ↔ b = true) ∧
      (∀ b, (newStorageMigrateDownCmd env).RunE = some (.newStorageMigrationRunE b) ↔
        b = false) ∧
      (∀ b, newStorageMigrateListUpCmd.RunE = some (.newStorageMigrateListRunE b) ↔ b = true) ∧
      (∀ b, newStorageMigrateListDownCmd.RunE = some (.newStorageMigrateListRunE b) ↔
        b = false) ∧
      (newStorageMigrateUpCmd env).fields.Use = env.storageMigrateDirectionUp ∧
      (newStorageMigrateDownCmd env).fields.Use = env.storageMigrateDirectionDown ∧
      newStorageMigrateListUpCmd.fields.Use = "list-up" ∧
      newStorageMigrateListDownCmd.fields.Use = "list-down" := by
  refine ⟨rfl, rfl, rfl, rfl, ?_, ?_, ?_, ?_, rfl, rfl, rfl, rfl⟩
  · intro b
    show some (Handler.newStorageMigrationRunE true) = some (.newStorageMigrationRunE b) ↔ _
    cases b <;> decide
  · intro b
    show some (Handler.newStorageMigrationRunE false) = some (.newStorageMigrationRunE b) ↔ _
    cases b <;> decide
  · intro b
    show some (Handler.newStorageMigrateListRunE true) = some (.newStorageMigrateListRunE b) ↔ _
    cases b <;> decide
  · intro b
    show some (Handler.newStorageMigrateListRunE false) = some (.newStorageMigrateListRunE b) ↔ _
    cases b <;> decide

/-- C9: the tree returned by `NewStorageCmd` has the stated shape: storage
holds migrate, schema-info, encryption, user; migrate holds the up and down
commands (named by the constants `storageMigrateDirectionUp` and
`storageMigrateDirectionDown`), list-up, list-down, history; encryption holds
change-key, check; user holds identifiers, totp; identifiers holds export,
import, generate, add; totp holds generate, delete, export.  Every leaf has
a `RunE` handler and no group has one.  The child names of each group are
pairwise distinct, for migrate as soon as the names given by the two
constants differ from each other and from list-up, list-down and history. -/
theorem storage_command_tree_shape (env : Env)
    (hud : (newStorageMigrateUpCmd env).Name ≠ (newStorageMigrateDownCmd env).Name)
    (hup : (newStorageMigrateUpCmd env).Name ∉ ["list-up", "list-down", "history"])
    (hdown : (newStorageMigrateDownCmd env).Name ∉ ["list-up", "list-down", "history"]) :
    ((NewStorageCmd env).Name = "storage" ∧
      (NewStorageCmd env).Commands =
        [newStorageMigrateCmd env, newStorageSchemaInfoCmd, newStorageEncryptionCmd,
          newStorageUserCmd env] ∧
      (NewStorageCmd env).childNames = ["migrate", "schema-info", "encryption", "user"]) ∧
    ((newStorageMigrateCmd env).Commands =
        [newStorageMigrateUpCmd env, newStorageMigrateDownCmd env,
          newStorageMigrateListUpCmd, newStorageMigrateListDownCmd,
          newStorageMigrateHistoryCmd] ∧
      (newStorageMigrateUpCmd env).fields.Use = env.storageMigrateDirectionUp ∧
      (newStorageMigrateDownCmd env).fields.Use = env.storageMigrateDirectionDown ∧
      (newStorageMigrateCmd env).childNames =
        [(newStorageMigrateUpCmd env).Name, (newStorageMigrateDownCmd env).Name,
          "list-up", "list-down", "history"]) ∧
    (newStorageEncryptionCmd.Commands =
        [newStorageEncryptionChangeKeyCmd, newStorageEncryptionCheckCmd] ∧
      newStorageEncryptionCmd.childNames = ["change-key", "check"]) ∧
    ((newStorageUserCmd env).Commands =
        [newStorageUserIdentifiersCmd env, newStorageTOTPCmd env] ∧
      (newStorageUserCmd env).childNames = ["identifiers", "totp"]) ∧
    ((newStorageUserIdentifiersCmd env).Commands =
        [newStorageUserIdentifiersExportCmd, newStorageUserIdentifiersImportCmd,
          newStorageUserIdentifiersGenerateCmd env, newStorageUserIdentifiersAddCmd env] ∧
      (newStorageUserIdentifiersCmd env).childNames = ["export", "import", "generate", "add"]) ∧
    ((newStorageTOTPCmd env).Commands =
        [newStorageTOTPGenerateCmd env, newStorageTOTPDeleteCmd, newStorageTOTPExportCmd env] ∧
      (newStorageTOTPCmd env).childNames = ["generate", "delete", "export"]) ∧
    (newStorageSchemaInfoCmd.Commands = [] ∧
      (∀ c ∈ (newStorageMigrateCmd env).Commands, c.Commands = []) ∧
      (∀ c ∈ newStorageEncryptionCmd.Commands, c.Commands = []) ∧
      (∀ c ∈ (newStorageUserIdentifiersCmd env).Commands, c.Commands = []) ∧
      (∀ c ∈ (newStorageTOTPCmd env).Commands, c.Commands = [])) ∧
    (NewStorageCmd env).handlersOnLeavesOnly = true ∧
    ((NewStorageCmd env).childNames.Nodup ∧
      (newStorageMigrateCmd env).childNames.Nodup ∧
      newStorageEncryptionCmd.childNames.Nodup ∧
      (newStorageUserCmd env).childNames.Nodup ∧
      (newStorageUserIdentifiersCmd env).childNames.Nodup ∧
      (newStorageTOTPCmd env).childNames.Nodup) := by
  have hstorage : (NewStorageCmd env).childNames =
      ["migrate", "schema-info", "encryption", "user"] := rfl
  have hmigrate : (newStorageMigrateCmd env).childNames =
      [(newStorageMigrateUpCmd env).Name, (newStorageMigrateDownCmd env).Name,
        "list-up", "list-down", "history"] := rfl
  have hencryption : newStorageEncryptionCmd.childNames = ["change-key", "check"] := rfl
  have huser : (newStorageUserCmd env).childNames = ["identifiers", "totp"] := rfl
  have hidentifiers : (newStorageUserIdentifiersCmd env).childNames =
      ["export", "import", "generate", "add"] := rfl
  have htotp : (newStorageTOTPCmd env).childNames = ["generate", "delete", "export"] := rfl
  have hleaf : ∀ (a b c d e : Command), a.Commands = [] → b.Commands = [] →
      c.Commands = [] → d.Commands = [] → e.Commands = [] →
      ∀ x ∈ [a, b, c, d, e], x.Commands = [] := by
    intro a b c d e ha hb hc hd he x hx
    simp only [List.mem_cons, List.mem_singleton, List.not_mem_nil, or_false] at hx
    rcases hx with h | h | h | h | h <;> rw [h] <;> assumption
  refine ⟨⟨rfl, rfl, hstorage⟩, ⟨rfl, rfl, rfl, hmigrate⟩, ⟨rfl, hencryption⟩, ⟨rfl, huser⟩,
    ⟨rfl, hidentifiers⟩, ⟨rfl, htotp⟩, ⟨rfl, ?_, ?_, ?_, ?_⟩, rfl, ?_, ?_, ?_, ?_, ?_, ?_⟩
  · exact hleaf _ _ _ _ _ rfl rfl rfl rfl rfl
  · intro x hx
    exact hleaf newStorageEncryptionChangeKeyCmd newStorageEncryptionCheckCmd
      newStorageEncryptionCheckCmd newStorageEncryptionCheckCmd newStorageEncryptionCheckCmd
      rfl rfl rfl rfl rfl x (by
        have : x ∈ [newStorageEncryptionChangeKeyCmd, newStorageEncryptionCheckCmd] := hx
        simp only [List.mem_cons, List.mem_singleton, List.not_mem_nil, or_false] at this ⊢
        rcases this with h | h <;> simp [h])
  · intro x hx
    exact hleaf newStorageUserIdentifiersExportCmd newStorageUserIdentifiersImportCmd
      (newStorageUserIdentifiersGenerateCmd env) (newStorageUserIdentifiersAddCmd env)
      (newStorageUserIdentifiersAddCmd env) rfl rfl rfl rfl rfl x (by
        have : x ∈ [newStorageUserIdentifiersExportCmd, newStorageUserIdentifiersImportCmd,
          newStorageUserIdentifiersGenerateCmd env, newStorageUserIdentifiersAddCmd env] := hx
        simp only [List.mem_cons, List.mem_singleton, List.not_mem_nil, or_false] at this ⊢
        rcases this with h | h | h | h <;> simp [h])
  · intro x hx
    exact hleaf (newStorageTOTPGenerateCmd env) newStorageTOTPDeleteCmd
      (newStorageTOTPExportCmd env) (newStorageTOTPExportCmd env)
      (newStorageTOTPExportCmd env) rfl rfl rfl rfl rfl x (by
        have : x ∈ [newStorageTOTPGenerateCmd env, newStorageTOTPDeleteCmd,
          newStorageTOTPExportCmd env] := hx
        simp only [List.mem_cons, List.mem_singleton, List.not_mem_nil, or_false] at this ⊢
        rcases this with h | h | h <;> simp [h])
  · rw [hstorage]; decide
  · rw [hmigrate]
    simp only [List.mem_cons, List.mem_singleton, List.not_mem_nil, or_false, not_or] at hup hdown
    simp only [List.nodup_cons, List.mem_cons, List.mem_singleton, List.not_mem_nil,
      or_false, not_or, List.nodup_nil, not_false_eq_true, and_true]
    exact ⟨⟨hud, hup.1, hup.2.1, hup.2.2⟩, ⟨hdown.1, hdown.2.1, hdown.2.2⟩,
      ⟨by decide, by decide⟩, by decide⟩
  · rw [hencryption]; decide
  · rw [huser]; decide
  · rw [hidentifiers]; decide
  · rw [htotp]; decide

/-- Witness of C9: with the constants `up` and `down` the children of migrate
are named up, down, list-up, list-down, history. -/
theorem storage_command_tree_shape_witness :
    (newStorageMigrateUpCmd sampleEnv).Name ≠ (newStorageMigrateDownCmd sampleEnv).Name ∧
      (newStorageMigrateUpCmd sampleEnv).Name ∉ ["list-up", "list-down", "history"] ∧
      (newStorageMigrateDownCmd sampleEnv).Name ∉ ["list-up", "list-down", "history"] ∧
      (newStorageMigrateCmd sampleEnv).childNames =
        ["up", "down", "list-up", "list-down", "history"] ∧
      (newStorageMigrateCmd sampleEnv).childNames.Nodup ∧
      (NewStorageCmd sampleEnv).handlersOnLeavesOnly = true :=
  ⟨by decide, by decide, by decide, by decide,
    (storage_command_tree_shape sampleEnv (by decide) (by decide) (by decide)).2.2.2.2.2.2.2.2.2.1,
    (storage_command_tree_shape sampleEnv (by decide) (by decide) (by decide)).2.2.2.2.2.2.2.1⟩

/-! ## The planner (modelled engine) -/

/-- The migrations listed for a direction are those of the registry in that
direction. -/
theorem mem_listMigrations (registry : List Migration) (direction : Direction)
    (m : Migration) :
    m ∈ listMigrations registry direction ↔ m ∈ registry ∧ m.direction = direction := by
  unfold listMigrations
  rw [(List.perm_insertionSort _ _).mem_iff]
  simp

/-- The migrations listed for a direction are ordered by version. -/
theorem sorted_listMigrations (registry : List Migration) (direction : Direction) :
    (listMigrations registry direction).Sorted (Direction.before direction) :=
  List.sorted_insertionSort _ _

/-- An ascending list of naturals without repetition whose members are the
numbers of `[a, a + n)` is `List.range' a n`. -/
theorem eq_range'_of_sorted_nodup (l : List Nat) (a n : Nat) (hs : l.Sorted (· ≤ ·))
    (hn : l.Nodup) (hm : ∀ v, v ∈ l ↔ a ≤ v ∧ v < a + n) : l = List.range' a n := by
  have hperm : l.Perm (List.range' a n) := by
    rw [List.perm_ext_iff_of_nodup hn (List.nodup_range' a n)]
    intro v
    rw [hm v, List.mem_range'_1]
  have hr : (List.range' a n).Sorted (· ≤ ·) :=
    (List.pairwise_lt_range' a n).imp (fun h => Nat.le_of_lt h)
  exact List.eq_of_perm_of_sorted hperm hs hr

/-- The window test on numbered versions, upwards. -/
theorem inWindow_up (c t v : Nat) :
    inWindow (.Versioned c) (.Versioned t) .up v = true ↔ c < v ∧ v ≤ t := by
  simp only [inWindow, SchemaVersion.lt, SchemaVersion.le, Bool.and_eq_true, Bool.or_eq_true,
    decide_eq_true_eq, SchemaVersion.Versioned.injEq]
  omega

/-- The window test on numbered versions, downwards from `t` to `c`. -/
theorem inWindow_down (c t v : Nat) :
    inWindow (.Versioned t) (.Versioned c) .down v = true ↔ c ≤ v ∧ v < t := by
  simp only [inWindow, SchemaVersion.lt, SchemaVersion.le, Bool.and_eq_true, Bool.or_eq_true,
    decide_eq_true_eq, SchemaVersion.Versioned.injEq]
  omega

/-- Reachability read as a statement about the registry. -/
theorem reachable_iff (registry : List Migration) (backend : Backend) (direction : Direction)
    (c t : Nat) :
    reachable registry backend direction c t = true ↔
      ∀ v, (match direction with | .up => c + 1 | .down => c) ≤ v →
        v < (match direction with | .up => c + 1 | .down => c) + (t - c) →
        ∃ m ∈ registry, m.version = v ∧ m.direction = direction ∧ m.applicable backend = true := by
  simp only [reachable, List.all_eq_true, List.any_eq_true, List.mem_range'_1, Bool.and_eq_true,
    decide_eq_true_eq, and_imp, and_assoc]

/-- Among the migrations that a plan selects, no version occurs twice when
the identities of the registry are unique on the backend. -/
theorem nodup_versions_of_selected (registry : List Migration) (backend : Backend)
    (direction : Direction) (q : Nat → Bool) (hid : identitiesUnique registry backend) :
    (((listMigrations registry direction).filter fun m =>
      m.applicable backend && q m.version).map Migration.version).Nodup := by
  have hperm : ((listMigrations registry direction).filter fun m =>
        m.applicable backend && q m.version).Perm
      ((registry.filter fun m => m.applicable backend).filter fun m =>
        decide (m.direction = direction) && q m.version) := by
    unfold listMigrations
    refine ((List.perm_insertionSort _ _).filter _).trans ?_
    rw [List.filter_filter, List.filter_filter]
    apply List.Perm.of_eq
    apply List.filter_congr
    intro m _
    cases m.applicable backend <;> cases q m.version <;> simp
  rw [(hperm.map Migration.version).nodup_iff]
  have hsub : (((registry.filter fun m => m.applicable backend).filter fun m =>
      decide (m.direction = direction) && q m.version).map Migration.identity).Nodup :=
    List.Nodup.sublist ((List.filter_sublist _).map _) hid
  have hmap : ((registry.filter fun m => m.applicable backend).filter fun m =>
        decide (m.direction = direction) && q m.version).map Migration.identity =
      (((registry.filter fun m => m.applicable backend).filter fun m =>
        decide (m.direction = direction) && q m.version).map Migration.version).map
          (fun v => (v, direction)) := by
    rw [List.map_map]
    apply List.map_congr_left
    intro m hm
    have hd : m.direction = direction := by
      have := (List.mem_filter.mp hm).2
      simp only [Bool.and_eq_true, decide_eq_true_eq] at this
      exact this.1
    simp [Migration.identity, hd]
  rw [hmap] at hsub
  exact List.Nodup.of_map _ hsub

/-- The plan for a numbered, non-zero up target that the registry knows and
that differs from the current version. -/
theorem plan_up_eq (registry : List Migration) (backend : Backend) (c t : Nat) (hct : c < t)
    (hex : targetExists registry (.Versioned t) = true) :
    plan registry backend (.Versioned c) (.Versioned t) .up =
      .ok { start := .Versioned c
            steps := (listMigrations registry .up).filter fun m =>
              m.applicable backend && inWindow (.Versioned c) (.Versioned t) .up m.version } := by
  have ht : t ≠ 0 := by omega
  have hne : c ≠ t := by omega
  simp [plan, ht, hne, hex]

/-- The plan for a numbered down target that the registry knows and that
differs from the current version. -/
theorem plan_down_eq (registry : List Migration) (backend : Backend) (c t : Nat) (hct : c < t)
    (hex : targetExists registry (.Versioned c) = true) :
    plan registry backend (.Versioned t) (.Versioned c) .down =
      .ok { start := .Versioned t
            steps := (listMigrations registry .down).filter fun m =>
              m.applicable backend && inWindow (.Versioned t) (.Versioned c) .down m.version } := by
  have hne : t ≠ c := by omega
  simp [plan, hne, hex]

/-- C6: for every pair `c < t` that is reachable in the direction on the
backend, in a registry whose identities are unique on the backend: the up
plan from `c` to `t` consists of migrations whose versions are exactly
`c+1, ..., t` in ascending order, and the down plan from `t` to `c` of
migrations whose versions are exactly `t-1, ..., c` in descending order; the
steps are migrations of the registry in that direction that apply to the
backend. -/
theorem plan_covers_window (registry : List Migration) (backend : Backend)
    (direction : Direction) (c t : Nat) (hct : c < t)
    (hid : identitiesUnique registry backend)
    (hreach : reachable registry backend direction c t = true) :
    ∃ p : Plan,
      (match direction with
        | .up => plan registry backend (.Versioned c) (.Versioned t) .up
        | .down => plan registry backend (.Versioned t) (.Versioned c) .down) = .ok p ∧
      p.start = (match direction with | .up => .Versioned c | .down => .Versioned t) ∧
      p.steps.map Migration.version =
        (match direction with
          | .up => List.range' (c + 1) (t - c)
          | .down => (List.range' c (t - c)).reverse) ∧
      ∀ m ∈ p.steps, m ∈ registry ∧ m.direction = direction ∧ m.applicable backend = true := by
  rw [reachable_iff] at hreach
  cases direction with
  | up =>
    dsimp only at hreach
    have hex : targetExists registry (.Versioned t) = true := by
      obtain ⟨m, hm, hv, -, -⟩ := hreach t (by omega) (by omega)
      simp only [targetExists, List.any_eq_true, decide_eq_true_eq]
      exact ⟨m, hm, hv⟩
    refine ⟨_, plan_up_eq registry backend c t hct hex, rfl, ?_, ?_⟩
    · apply eq_range'_of_sorted_nodup
      · have hs := (sorted_listMigrations registry .up).filter
          (fun m => m.applicable backend && inWindow (.Versioned c) (.Versioned t) .up m.version)
        exact List.pairwise_map.mpr hs
      · exact nodup_versions_of_selected registry backend .up
          (inWindow (.Versioned c) (.Versioned t) .up) hid
      · intro v
        simp only [List.mem_map, List.mem_filter, mem_listMigrations, Bool.and_eq_true,
          inWindow_up]
        constructor
        · rintro ⟨m, ⟨-, -, hw⟩, rfl⟩
          omega
        · intro hv
          obtain ⟨m, hm, hmv, hd, ha⟩ := hreach v (by omega) (by omega)
          exact ⟨m, ⟨⟨hm, hd⟩, ha, by omega⟩, hmv⟩
    · intro m hm
      simp only [List.mem_filter, mem_listMigrations, Bool.and_eq_true] at hm
      exact ⟨hm.1.1, hm.1.2, hm.2.1⟩
  | down =>
    dsimp only at hreach
    have hex : targetExists registry (.Versioned c) = true := by
      obtain ⟨m, hm, hv, -, -⟩ := hreach c (by omega) (by omega)
      simp only [targetExists, List.any_eq_true, decide_eq_true_eq]
      exact ⟨m, hm, hv⟩
    refine ⟨_, plan_down_eq registry backend c t hct hex, rfl, ?_, ?_⟩
    · rw [← List.reverse_eq_iff]
      apply eq_range'_of_sorted_nodup
      · have hs := (sorted_listMigrations registry .down).filter
          (fun m => m.applicable backend && inWindow (.Versioned t) (.Versioned c) .down m.version)
        have hs' : List.Pairwise (fun a b : Nat => b ≤ a)
            (((listMigrations registry .down).filter fun m =>
              m.applicable backend &&
                inWindow (.Versioned t) (.Versioned c) .down m.version).map
              Migration.version) := List.pairwise_map.mpr hs
        exact List.pairwise_reverse.mpr hs'
      · exact List.nodup_reverse.mpr (nodup_versions_of_selected registry backend .down
          (inWindow (.Versioned t) (.Versioned c) .down) hid)
      · intro v
        simp only [List.mem_reverse, List.mem_map, List.mem_filter, mem_listMigrations,
          Bool.and_eq_true, inWindow_down]
        constructor
        · rintro ⟨m, ⟨-, -, hw⟩, rfl⟩
          omega
        · intro hv
          obtain ⟨m, hm, hmv, hd, ha⟩ := hreach v (by omega) (by omega)
          exact ⟨m, ⟨⟨hm, hd⟩, ha, by omega⟩, hmv⟩
    · intro m hm
      simp only [List.mem_filter, mem_listMigrations, Bool.and_eq_true] at hm
      exact ⟨hm.1.1, hm.1.2, hm.2.1⟩

/-! ## The executor (modelled engine) -/

/-- The version after `k + 1` steps, the first of which succeeded. -/
theorem versionAfter_cons_succ (start : SchemaVersion) (m : Migration) (rest : List Migration)
    (k : Nat) :
    versionAfter start (m :: rest) (k + 1) = versionAfter (.Versioned m.version) rest k := by
  simp [versionAfter]

/-- What a successful step does to the store. -/
theorem runStep_ok (appliedAt : Nat) (m : Migration) (s s' : Store)
    (entry : MigrationHistoryEntry) (h : runStep appliedAt m s = .ok (s', entry)) :
    s'.version = .Versioned m.version ∧ s'.history = s.history ++ [entry] ∧
      entry.version = m.version ∧ s'.locked = s.locked := by
  unfold runStep at h
  cases ha : m.apply s.rows with
  | error cause => rw [ha] at h; cases h
  | ok rows =>
    rw [ha] at h
    simp only [Except.ok.injEq, Prod.mk.injEq] at h
    obtain ⟨hs, he⟩ := h
    subst hs
    subst he
    exact ⟨rfl, rfl, rfl, rfl⟩

/-- A run of steps numbered from `i0` that fails at step `i`: the store is at
the version after the `i - i0` steps before it, the ledger grew by those
steps only, and the executor was running the steps `i0 .. i` and no other. -/
theorem runSteps_failed (clock : Nat → Nat) :
    ∀ (steps : List Migration) (i0 : Nat) (s : Store) (trace : List ExecutorState)
      (entries : List MigrationHistoryEntry) (i : Nat) (cause : String),
      (runSteps clock i0 steps s trace entries).result = .error (.MigrationFailed i cause) →
      i0 ≤ i ∧ i < i0 + steps.length ∧
      (runSteps clock i0 steps s trace entries).store.version =
        versionAfter s.version steps (i - i0) ∧
      (∃ added : List MigrationHistoryEntry,
        (runSteps clock i0 steps s trace entries).store.history = s.history ++ added ∧
        added.length = i - i0 ∧
        added.map (fun e => e.version) =
          (steps.take (i - i0)).map Migration.version) ∧
      (runSteps clock i0 steps s trace entries).trace =
        trace ++ (List.range' i0 (i - i0 + 1)).map ExecutorState.Running ++
          [ExecutorState.Halted i cause]
  | [], i0, s, trace, entries, i, cause, h => by
    simp [runSteps] at h
  | m :: rest, i0, s, trace, entries, i, cause, h => by
    unfold runSteps at h ⊢
    cases hstep : runStep (clock i0) m s with
    | error cause' =>
      rw [hstep] at h
      simp only [Except.error.injEq, ExecuteError.MigrationFailed.injEq] at h
      obtain ⟨hi, hc⟩ := h
      subst hi
      subst hc
      simp [versionAfter]
    | ok pair =>
      obtain ⟨s', entry⟩ := pair
      rw [hstep] at h
      obtain ⟨hv, hh, he, -⟩ := runStep_ok _ _ _ _ _ hstep
      obtain ⟨h1, h2, h3, ⟨added, h4, h5, h6⟩, h7⟩ :=
        runSteps_failed clock rest (i0 + 1) s' (trace ++ [.Running i0]) (entries ++ [entry])
          i cause h
      have hk : i - i0 = (i - (i0 + 1)) + 1 := by omega
      refine ⟨by omega, by simp only [List.length_cons]; omega, ?_, ?_, ?_⟩
      · simp only []
        rw [h3, hk, versionAfter_cons_succ, hv]
      · refine ⟨entry :: added, ?_, ?_, ?_⟩
        · simp only []
          rw [h4, hh, List.append_assoc]
          rfl
        · simp only [List.length_cons]; omega
        · rw [hk, List.take_succ_cons, List.map_cons, List.map_cons, h6, he]
      · simp only []
        rw [h7, hk, List.range'_succ i0 (i - (i0 + 1) + 1)]
        simp

/-- C7: when `execute` fails at step `i` of a plan of `N` steps, then
`1 ≤ i ≤ N`, `currentVersion()` is the version after step `i - 1`,
`history()` is the former ledger followed by exactly `i - 1` new entries
(those of steps `1 .. i - 1`), and the executor ran the steps `1 .. i` and
then halted: no step after `i` was attempted. -/
theorem execute_partial_success (clock : Nat → Nat) (p : Plan) (s : Store)
    (confirmDestructive : Bool) (i : Nat) (cause : String)
    (hfail : (execute clock p s confirmDestructive).result =
      .error (.MigrationFailed i cause)) :
    1 ≤ i ∧ i ≤ p.steps.length ∧
      currentVersion (execute clock p s confirmDestructive).store =
        versionAfter s.version p.steps (i - 1) ∧
      (∃ added : List MigrationHistoryEntry,
        history (execute clock p s confirmDestructive).store = history s ++ added ∧
        added.length = i - 1 ∧
        added.map (fun e => e.version) = (p.steps.take (i - 1)).map Migration.version) ∧
      (execute clock p s confirmDestructive).trace =
        (List.range' 1 i).map ExecutorState.Running ++ [ExecutorState.Halted i cause] ∧
      (∀ j, ExecutorState.Running j ∈ (execute clock p s confirmDestructive).trace ↔
        1 ≤ j ∧ j ≤ i) := by
  unfold execute at hfail ⊢
  by_cases hl : s.locked = true
  · simp [hl] at hfail
  · by_cases hv : p.start ≠ s.version
    · simp [hl, hv] at hfail
    · by_cases hd : (!confirmDestructive && p.steps.any fun m => m.destructive) = true
      · rw [if_neg hl, if_neg hv, if_pos hd] at hfail
        simp at hfail
      · rw [if_neg hl, if_neg hv, if_neg hd] at hfail ⊢
        obtain ⟨h1, h2, h3, ⟨added, h4, h5, h6⟩, h7⟩ :=
          runSteps_failed clock p.steps 1 { s with locked := true } [] [] i cause hfail
        have htrace : (runSteps clock 1 p.steps { s with locked := true } [] []).trace =
            (List.range' 1 i).map ExecutorState.Running ++ [ExecutorState.Halted i cause] := by
          rw [h7]
          have : i - 1 + 1 = i := by omega
          simp [this]
        refine ⟨h1, by omega, h3, ⟨added, h4, h5, h6⟩, htrace, ?_⟩
        intro j
        show ExecutorState.Running j ∈
          (runSteps clock 1 p.steps { s with locked := true } [] []).trace ↔ _
        rw [htrace]
        simp only [List.mem_append, List.mem_map, List.mem_range'_1, List.mem_singleton,
          ExecutorState.Running.injEq, exists_eq_right, reduceCtorEq, or_false]
        omega

/-! ## The key checker and the key rotator (modelled engine) -/

/-- A column whose rotation reports no failure holds, after the rows that
were committed or pending before, one rewritten row per stored row, each
sealed under the new key. -/
theorem rotateRows_ok (oldKey newKey : EncryptionKeyMaterial) (batchSize : Nat) :
    ∀ (rows : List Cell) (i : Nat) (committed pendingOld pendingNew : List Cell) (nonce : Nat),
      (rotateRows oldKey newKey batchSize rows i committed pendingOld pendingNew nonce).failure
          = none →
      ∃ tail : List Cell,
        (rotateRows oldKey newKey batchSize rows i committed pendingOld pendingNew nonce).rows =
          committed ++ pendingNew ++ tail ∧
        tail.length = rows.length ∧ allUnder newKey tail
  | [], i, committed, pendingOld, pendingNew, nonce, _ =>
    ⟨[], by simp [rotateRows], rfl, by intro c hc; cases hc⟩
  | c :: rest, i, committed, pendingOld, pendingNew, nonce, h => by
    unfold rotateRows at h ⊢
    cases hdec : decrypt oldKey c with
    | error e => rw [hdec] at h; simp at h
    | ok plain =>
      rw [hdec] at h
      simp only [] at h ⊢
      by_cases hfull : batchSize ≤ (pendingNew ++ [encrypt newKey nonce plain]).length
      · rw [if_pos hfull] at h ⊢
        obtain ⟨tail, ht1, ht2, ht3⟩ := rotateRows_ok oldKey newKey batchSize rest (i + 1)
          (committed ++ (pendingNew ++ [encrypt newKey nonce plain])) [] [] (nonce + 1) h
        refine ⟨encrypt newKey nonce plain :: tail, ?_, by simp [ht2], ?_⟩
        · rw [ht1]; simp
        · intro x hx
          rcases List.mem_cons.mp hx with hx | hx
          · exact ⟨nonce, plain, hx⟩
          · exact ht3 x hx
      · rw [if_neg hfull] at h ⊢
        obtain ⟨tail, ht1, ht2, ht3⟩ := rotateRows_ok oldKey newKey batchSize rest (i + 1)
          committed (pendingOld ++ [c]) (pendingNew ++ [encrypt newKey nonce plain])
          (nonce + 1) h
        refine ⟨encrypt newKey nonce plain :: tail, ?_, by simp [ht2], ?_⟩
        · rw [ht1]; simp
        · intro x hx
          rcases List.mem_cons.mp hx with hx | hx
          · exact ⟨nonce, plain, hx⟩
          · exact ht3 x hx

/-- A successful rotation over a list of columns keeps the schema version,
leaves the other columns alone, keeps the number of rows of every column and
leaves every listed column sealed under the new key. -/
theorem rotateColumns_ok (oldKey newKey : EncryptionKeyMaterial) (batchSize : Nat) :
    ∀ (ds : List EncryptedColumnDescriptor) (s : Store) (nonce : Nat) (report : RotationReport)
      (final : RotationReport),
      (rotateColumns oldKey newKey batchSize ds s nonce report).result = .ok final →
      (rotateColumns oldKey newKey batchSize ds s nonce report).store.version = s.version ∧
      (∀ d, d ∉ ds →
        (rotateColumns oldKey newKey batchSize ds s nonce report).store.rows d = s.rows d) ∧
      (∀ d, ((rotateColumns oldKey newKey batchSize ds s nonce report).store.rows d).length =
        (s.rows d).length) ∧
      (∀ d, d ∈ ds →
        allUnder newKey ((rotateColumns oldKey newKey batchSize ds s nonce report).store.rows d))
  | [], s, nonce, report, final, _ => by
    simp [rotateColumns]
  | d :: ds, s, nonce, report, final, h => by
    unfold rotateColumns at h ⊢
    simp only [] at h ⊢
    cases hf : (rotateRows oldKey newKey batchSize (s.rows d) 0 [] [] [] nonce).failure with
    | some fe =>
      rw [hf] at h
      simp at h
    | none =>
      rw [hf] at h
      simp only [] at h ⊢
      obtain ⟨tail, ht1, ht2, ht3⟩ :=
        rotateRows_ok oldKey newKey batchSize (s.rows d) 0 [] [] [] nonce hf
      simp only [List.append_nil, List.nil_append] at ht1
      obtain ⟨h1, h2, h3, h4⟩ := rotateColumns_ok oldKey newKey batchSize ds _ _ _ final h
      refine ⟨h1, ?_, ?_, ?_⟩
      · intro d' hd'
        have hne : d' ≠ d := fun e => hd' (e ▸ List.mem_cons_self _ _)
        have hnot : d' ∉ ds := fun e => hd' (List.mem_cons_of_mem _ e)
        rw [h2 d' hnot]
        simp [hne]
      · intro d'
        rw [h3 d']
        by_cases hdd : d' = d
        · subst hdd
          simp [ht1, ht2]
        · simp [hdd]
      · intro d' hd'
        by_cases hin : d' ∈ ds
        · exact h4 d' hin
        · have hdd : d' = d := by
            rcases List.mem_cons.mp hd' with e | e
            · exact e
            · exact absurd e hin
          rw [h2 d' hin]
          subst hdd
          simp only [if_true, ht1]
          exact ht3

/-- Rows sealed under a key all decrypt under it. -/
theorem rowFailures_eq_nil (key : EncryptionKeyMaterial) (d : EncryptedColumnDescriptor) :
    ∀ (cells : List Cell) (i : Nat), allUnder key cells → rowFailures key d i cells = []
  | [], _, _ => rfl
  | c :: cs, i, h => by
    obtain ⟨nonce, plain, hc⟩ := h c (List.mem_cons_self _ _)
    subst hc
    simp only [rowFailures, decrypt, if_true]
    exact rowFailures_eq_nil key d cs (i + 1) (fun x hx => h x (List.mem_cons_of_mem _ hx))

/-- Rows sealed under one key all fail to decrypt under a different key. -/
theorem rowFailures_of_other_key (key other : EncryptionKeyMaterial) (hne : other ≠ key)
    (d : EncryptedColumnDescriptor) :
    ∀ (cells : List Cell) (i : Nat), allUnder other cells →
      rowFailures key d i cells =
        (List.range' i cells.length).map fun j => (d.rowRef j, DecryptError.KeyMismatch)
  | [], _, _ => rfl
  | c :: cs, i, h => by
    obtain ⟨nonce, plain, hc⟩ := h c (List.mem_cons_self _ _)
    subst hc
    simp only [rowFailures, decrypt, if_neg hne, List.length_cons, List.range'_succ,
      List.map_cons]
    rw [rowFailures_of_other_key key other hne d cs (i + 1)
      (fun x hx => h x (List.mem_cons_of_mem _ hx))]

/-- C8, amended to different keys: after a successful `rotate(oldKey, newKey)`
with `oldKey ≠ newKey`, `check(newKey, verbose=true)` reports no failure, and
`check(oldKey, verbose=true)` reports a failure for every row that the
encrypted columns held before the rotation. -/
theorem rotate_then_check (layout : SchemaVersion → List EncryptedColumnDescriptor) (s : Store)
    (oldKey newKey : EncryptionKeyMaterial) (batchSize nonce : Nat) (report : RotationReport)
    (hne : oldKey ≠ newKey)
    (hok : (rotate layout s oldKey newKey batchSize nonce).result = .ok report) :
    (check layout (rotate layout s oldKey newKey batchSize nonce).store newKey true).failures
        = [] ∧
      ∀ d ∈ layout s.version, ∀ i, i < (s.rows d).length →
        d.rowRef i ∈
          (check layout (rotate layout s oldKey newKey batchSize nonce).store oldKey
            true).failures := by
  unfold rotate at hok ⊢
  by_cases hl : s.locked = true
  · simp [hl] at hok
  · rw [if_neg hl] at hok ⊢
    simp only [] at hok ⊢
    obtain ⟨hv, -, hlen, hall⟩ := rotateColumns_ok oldKey newKey batchSize (layout s.version)
      { s with locked := true } nonce { columnsRotated := 0, rowsRotated := 0 } report hok
    simp only [] at hv hlen hall
    simp only [check, if_true, checkVerbose, hv]
    constructor
    · rw [List.map_eq_nil_iff, List.flatMap_eq_nil_iff]
      intro d hd
      exact rowFailures_eq_nil newKey d _ 0 (hall d hd)
    · intro d hd i hi
      rw [List.mem_map]
      refine ⟨(d.rowRef i, DecryptError.KeyMismatch), ?_, rfl⟩
      rw [List.mem_flatMap]
      refine ⟨d, hd, ?_⟩
      rw [rowFailures_of_other_key oldKey newKey (Ne.symm hne) d _ 0 (hall d hd), List.mem_map]
      refine ⟨i, ?_, rfl⟩
      rw [List.mem_range'_1, hlen d]
      omega

/-- Witness of C6: on the sample registry the up plan from 0 to 3 on the
embedded store has versions 1, 2, 3, and the down plan from 3 to 0 on
PostgreSQL has versions 2, 1, 0. -/
theorem plan_covers_window_witness :
    ((0 < 3 ∧ identitiesUnique sampleRegistry .sqlite ∧
        reachable sampleRegistry .sqlite .up 0 3 = true) ∧
      ∃ p : Plan, plan sampleRegistry .sqlite (.Versioned 0) (.Versioned 3) .up = .ok p ∧
        p.steps.map Migration.version = [1, 2, 3]) ∧
    ((identitiesUnique sampleRegistry .postgres ∧
        reachable sampleRegistry .postgres .down 0 3 = true) ∧
      ∃ p : Plan, plan sampleRegistry .postgres (.Versioned 3) (.Versioned 0) .down = .ok p ∧
        p.steps.map Migration.version = [2, 1, 0]) := by
  have hs : identitiesUnique sampleRegistry .sqlite := by unfold identitiesUnique; decide
  have hp : identitiesUnique sampleRegistry .postgres := by unfold identitiesUnique; decide
  refine ⟨⟨⟨by decide, hs, by decide⟩, ?_⟩, ⟨⟨hp, by decide⟩, ?_⟩⟩
  · obtain ⟨p, h1, -, h3, -⟩ :=
      plan_covers_window sampleRegistry .sqlite .up 0 3 (by decide) hs (by decide)
    exact ⟨p, h1, h3⟩
  · obtain ⟨p, h1, -, h3, -⟩ :=
      plan_covers_window sampleRegistry .postgres .down 0 3 (by decide) hp (by decide)
    exact ⟨p, h1, h3⟩

/-- No migration of the registry has a version above `latestVersion`. -/
theorem le_latestVersion : ∀ (registry : List Migration) (m : Migration),
    m ∈ registry → m.version ≤ latestVersion registry
  | [], _, h => by cases h
  | x :: rest, m, h => by
    simp only [latestVersion, List.map_cons, List.foldr_cons]
    rcases List.mem_cons.mp h with e | e
    · subst e
      exact Nat.le_max_left _ _
    · exact Nat.le_trans (le_latestVersion rest m e) (Nat.le_max_right _ _)

/-- C3: the `target` flag of the up command is an integer flag with shorthand
`t` and default 0, so an invocation without the flag has target 0; and the
planner gives, for the up target 0, the plan it gives for the highest
version known to the registry. -/
theorem up_target_defaults_to_latest (env : Env) (registry : List Migration)
    (backend : Backend) (current : SchemaVersion) :
    (newStorageMigrateUpCmd env).Flags.Lookup "target" =
        some { name := "target", shorthand := "t", defValue := .int 0,
               usage := "sets the version to migrate to, by default this is the latest version" } ∧
      (newStorageMigrateUpCmd env).Flags.valueOf [] "target" = some (.int 0) ∧
      plan registry backend current (.Versioned 0) .up =
        plan registry backend current (.Versioned (latestVersion registry)) .up ∧
      ∀ m ∈ registry, m.version ≤ latestVersion registry := by
  refine ⟨rfl, rfl, ?_, le_latestVersion registry⟩
  by_cases h0 : latestVersion registry = 0
  · rw [h0]
  · simp [plan, h0]

/-- Witness of C7: the sample plan fails at step 3 of 4; the store is at
version 2 with two ledger entries, and step 4 was not attempted. -/
theorem execute_partial_success_witness :
    (execute (fun i => 1000 + i) samplePlan sampleStore false).result =
        .error (.MigrationFailed 3 "disk full") ∧
      currentVersion (execute (fun i => 1000 + i) samplePlan sampleStore false).store =
        .Versioned 2 ∧
      (history (execute (fun i => 1000 + i) samplePlan sampleStore false).store).length = 2 ∧
      (execute (fun i => 1000 + i) samplePlan sampleStore false).trace =
        [.Running 1, .Running 2, .Running 3, .Halted 3 "disk full"] :=
  ⟨by decide,
    (execute_partial_success (fun i => 1000 + i) samplePlan sampleStore false 3 "disk full"
      (by decide)).2.2.1,
    by decide,
    (execute_partial_success (fun i => 1000 + i) samplePlan sampleStore false 3 "disk full"
      (by decide)).2.2.2.2.1⟩

/-- Witness of C8 as amended: rotating the sample store from key `[1]` to
key `[2]` in batches of two succeeds; the new key then validates every row
and the old key none. -/
theorem rotate_then_check_witness :
    ([1] ≠ [2] ∧
        (rotate sampleLayout sampleStore [1] [2] 2 100).result =
          .ok { columnsRotated := 1, rowsRotated := 3 }) ∧
      (check sampleLayout (rotate sampleLayout sampleStore [1] [2] 2 100).store [2]
        true).failures = [] ∧
      (check sampleLayout (rotate sampleLayout sampleStore [1] [2] 2 100).store [1]
        true).failures = [sampleColumn.rowRef 0, sampleColumn.rowRef 1, sampleColumn.rowRef 2] :=
  ⟨⟨by decide, by decide⟩,
    (rotate_then_check sampleLayout sampleStore [1] [2] 2 100
      { columnsRotated := 1, rowsRotated := 3 } (by decide) (by decide)).1,
    by decide⟩

/-- Counterexample to C8 as stated: rotating the sample store from key `[1]`
to the same key succeeds, and afterwards `check` under the old key reports no
failure although the column holds three rows encrypted before the rotation. -/
theorem rotate_same_key_old_key_still_valid :
    (rotate sampleLayout sampleStore [1] [1] 2 100).result =
        .ok { columnsRotated := 1, rowsRotated := 3 } ∧
      (check sampleLayout (rotate sampleLayout sampleStore [1] [1] 2 100).store [1]
        true).failures = [] ∧
      sampleColumn ∈ sampleLayout sampleStore.version ∧
      (sampleStore.rows sampleColumn).length = 3 ∧
      sampleColumn.rowRef 0 ∉
        (check sampleLayout (rotate sampleLayout sampleStore [1] [1] 2 100).store [1]
          true).failures := by
  decide

end Authelia
